import Mathlib

/-!
A shallow embedding of the structured text-editing engine in `ui/sql_editor.go`
(the `SQLEditor` widget): the multi-line text buffer, cursor/selection state,
undo/redo stacks and the two-mode autocomplete resolver.

Modelling conventions:
* Go strings are byte-indexed ASCII-oriented; a line is embedded as `List Char`.
* Go slice/string indexing that the code only performs in-bounds is embedded
  with the total operations `List.getD`, `List.take`, `List.drop`.
* Rendering, blinking, focus, the clipboard and the canvas geometry fields are
  out of scope (they never influence the buffer/undo/autocomplete logic);
  callbacks are modelled by their observable effect (`hasOnProjectNeeded`
  records whether the `OnProjectNeeded` callback is set, and functions that may
  fire it return the list of projects passed to it).
* Go `map` values are embedded as association lists with unique keys;
  `map` indexing is `lookupA` (first match).
-/

namespace SQLEd

/-- A Go string, byte-indexed (ASCII-oriented, as the source treats text). -/
abbrev Str := List Char

/-- Mirrors `strings.Split(s, sep)` for a one-character separator:
splitting the empty string yields one empty segment. -/
def splitOnChar (sep : Char) : Str → List Str
  | [] => [[]]
  | c :: cs =>
    if c = sep then [] :: splitOnChar sep cs
    else
      match splitOnChar sep cs with
      | [] => [[c]]
      | l :: ls => (c :: l) :: ls

/-- Mirrors `strings.Join(ls, sep)` for a one-character separator. -/
def joinChar (sep : Char) : List Str → Str
  | [] => []
  | [l] => l
  | l :: ls => l ++ sep :: joinChar sep ls

theorem splitOnChar_ne_nil (sep : Char) (s : Str) : splitOnChar sep s ≠ [] := by
  cases s with
  | nil => simp [splitOnChar]
  | cons c cs =>
    simp only [splitOnChar]
    split
    · simp
    · split <;> simp

theorem joinChar_splitOnChar (sep : Char) (s : Str) :
    joinChar sep (splitOnChar sep s) = s := by
  induction s with
  | nil => rfl
  | cons c cs ih =>
    simp only [splitOnChar]
    split
    · rename_i hc
      subst hc
      rcases h : splitOnChar c cs with _ | ⟨l, ls⟩
      · exact absurd h (splitOnChar_ne_nil c cs)
      · rw [h] at ih
        simp [joinChar, ih]
    · rcases h : splitOnChar sep cs with _ | ⟨l, ls⟩
      · exact absurd h (splitOnChar_ne_nil sep cs)
      · rw [h] at ih
        cases ls with
        | nil => simp_all [joinChar]
        | cons l' ls' => simp_all [joinChar]

/-- An undo/redo snapshot (`undoEntry` in the source): a full copy of the
lines plus the cursor position at snapshot time. -/
structure UndoEntry where
  lines : List Str
  cursorRow : Nat
  cursorCol : Nat
deriving DecidableEq

/-- `maxUndoStack` in the source. -/
def maxUndoStack : Nat := 500

/-- `maxACDisplay` in the source. -/
def maxACDisplay : Nat := 8

/-- The project hierarchy: project -> dataset -> table names
(`map[string]map[string][]string` in the source, embedded as association
lists with unique keys). -/
abbrev ProjData := List (Str × List (Str × List Str))

/-- The mutable state of `SQLEditor` that the text-editing engine reads and
writes: lines, cursor, selection, undo/redo stacks and autocomplete state.
Rendering-only fields (grid, blink, focus, dropdown geometry) are omitted;
`hasOnProjectNeeded` records whether the `OnProjectNeeded` callback is set. -/
structure EState where
  lines : List Str
  cursorRow : Nat
  cursorCol : Nat
  hasSelection : Bool
  anchorRow : Nat
  anchorCol : Nat
  undoStack : List UndoEntry
  redoStack : List UndoEntry
  completions : List Str
  acProjectData : Option ProjData
  acPrefix : Str
  acFiltered : List Str
  acVisible : Bool
  acSelected : Nat
  acLoadRequested : List Str
  hasOnProjectNeeded : Bool
deriving DecidableEq

/-- The current line `e.lines[e.cursorRow]` (total embedding of the in-bounds
Go indexing). -/
def curLine (e : EState) : Str := e.lines.getD e.cursorRow []

/-- `cursorLeftLocked`: one step left, wrapping to the previous line's end. -/
def cursorLeftLocked (e : EState) : EState :=
  if 0 < e.cursorCol then
    { e with cursorCol := e.cursorCol - 1 }
  else if 0 < e.cursorRow then
    { e with cursorRow := e.cursorRow - 1,
             cursorCol := (e.lines.getD (e.cursorRow - 1) []).length }
  else e

/-- `cursorRightLocked`: one step right, wrapping to the next line's start. -/
def cursorRightLocked (e : EState) : EState :=
  if e.cursorCol < (curLine e).length then
    { e with cursorCol := e.cursorCol + 1 }
  else if e.cursorRow < e.lines.length - 1 then
    { e with cursorRow := e.cursorRow + 1, cursorCol := 0 }
  else e

/-- The cursor bounds invariant of the data model: the row points at an
existing line and the column is at most that line's length (end-of-line
inclusive). -/
abbrev CursorInv (e : EState) : Prop :=
  e.cursorRow < e.lines.length ∧ e.cursorCol ≤ (curLine e).length

/-- A single-step horizontal cursor motion. -/
inductive LRMove where
  | left
  | right
deriving DecidableEq

/-- Apply one single-step motion. -/
def applyLR (m : LRMove) (e : EState) : EState :=
  match m with
  | .left => cursorLeftLocked e
  | .right => cursorRightLocked e

/-- Apply a sequence of single-step horizontal motions, oldest first. -/
def applyLRs (ms : List LRMove) (e : EState) : EState :=
  ms.foldl (fun s m => applyLR m s) e

theorem cursorLeftLocked_inv (e : EState) (h : CursorInv e) :
    CursorInv (cursorLeftLocked e) := by
  obtain ⟨h1, h2⟩ := h
  unfold cursorLeftLocked
  split_ifs with hc hr
  · exact ⟨h1, by simp only [CursorInv, curLine] at h2 ⊢; omega⟩
  · refine ⟨?_, ?_⟩
    · show e.cursorRow - 1 < e.lines.length
      omega
    · show (e.lines.getD (e.cursorRow - 1) []).length ≤ _
      simp [curLine]
  · exact ⟨h1, h2⟩

theorem cursorRightLocked_inv (e : EState) (h : CursorInv e) :
    CursorInv (cursorRightLocked e) := by
  obtain ⟨h1, h2⟩ := h
  unfold cursorRightLocked
  split_ifs with hc hr
  · exact ⟨h1, by simp only [CursorInv, curLine] at hc ⊢; omega⟩
  · refine ⟨?_, ?_⟩
    · show e.cursorRow + 1 < e.lines.length
      omega
    · show 0 ≤ _
      omega
  · exact ⟨h1, h2⟩

/-- A concrete editor state with the given buffer and cursor and all other
fields at their zero values; used for concrete evaluations. -/
def mkState (ls : List Str) (row col : Nat) : EState where
  lines := ls
  cursorRow := row
  cursorCol := col
  hasSelection := false
  anchorRow := 0
  anchorCol := 0
  undoStack := []
  redoStack := []
  completions := []
  acProjectData := none
  acPrefix := []
  acFiltered := []
  acVisible := false
  acSelected := 0
  acLoadRequested := []
  hasOnProjectNeeded := false

/-- **C1.** Starting from any editor state whose cursor satisfies the bounds
invariant (row in `[0, number of lines)` and col in `[0, length of
lines[row]]`), every sequence of single-step left and right cursor motions
(`cursorLeftLocked` / `cursorRightLocked`) preserves that invariant: the
cursor always stays within `(0,0)` and `(lastRow, len lastLine)` inclusive
and never points past the final row or past end-of-line (rows and columns
are naturals, so `(0,0)` is a lower bound by construction). -/
theorem C1_lr_motions_preserve_cursor_bounds (ms : List LRMove) (e : EState)
    (h : CursorInv e) : CursorInv (applyLRs ms e) := by
  induction ms generalizing e with
  | nil => exact h
  | cons m ms ih =>
    have hstep : applyLRs (m :: ms) e = applyLRs ms (applyLR m e) := rfl
    rw [hstep]
    cases m
    · exact ih _ (cursorLeftLocked_inv e h)
    · exact ih _ (cursorRightLocked_inv e h)

/-- Witness for C1: a concrete two-line buffer and motion sequence. -/
theorem C1_lr_motions_preserve_cursor_bounds_witness :
    CursorInv (mkState ["ab".toList, "c".toList] 0 1) ∧
    CursorInv (applyLRs [.right, .right, .left, .right, .right, .right]
      (mkState ["ab".toList, "c".toList] 0 1)) :=
  ⟨by decide, C1_lr_motions_preserve_cursor_bounds _ _ (by decide)⟩

/-! ## Undo engine -/

/-- The snapshot of the current lines and cursor (the `undoEntry` values
built in `saveUndoLocked`, `doUndo` and `doRedo`). -/
def snapshot (e : EState) : UndoEntry :=
  { lines := e.lines, cursorRow := e.cursorRow, cursorCol := e.cursorCol }

/-- Push a snapshot onto an undo stack, evicting the oldest entry when the
stack exceeds `maxUndoStack` (the append-and-trim in `saveUndoLocked`). -/
def pushBounded (u : UndoEntry) (st : List UndoEntry) : List UndoEntry :=
  let st' := st ++ [u]
  if maxUndoStack < st'.length then st'.drop 1 else st'

/-- `saveUndoLocked`: snapshot the current state onto the (bounded) undo
stack and clear the redo stack. -/
def saveUndoLocked (e : EState) : EState :=
  { e with undoStack := pushBounded (snapshot e) e.undoStack, redoStack := [] }

/-- `doUndo`: no-op when the undo stack is empty; otherwise push the current
state onto the redo stack, pop the newest undo snapshot and restore it. -/
def doUndo (e : EState) : EState :=
  match e.undoStack.getLast? with
  | none => e
  | some snap =>
    { e with redoStack := e.redoStack ++ [snapshot e],
             undoStack := e.undoStack.dropLast,
             lines := snap.lines,
             cursorRow := snap.cursorRow,
             cursorCol := snap.cursorCol,
             hasSelection := false }

/-- `doRedo`: no-op when the redo stack is empty; otherwise push the current
state onto the undo stack (unbounded in the source), pop the newest redo
snapshot and restore it. -/
def doRedo (e : EState) : EState :=
  match e.redoStack.getLast? with
  | none => e
  | some snap =>
    { e with undoStack := e.undoStack ++ [snapshot e],
             redoStack := e.redoStack.dropLast,
             lines := snap.lines,
             cursorRow := snap.cursorRow,
             cursorCol := snap.cursorCol,
             hasSelection := false }

theorem pushBounded_ne_nil (u : UndoEntry) (st : List UndoEntry) :
    pushBounded u st ≠ [] := by
  unfold pushBounded
  simp only []
  split
  · rename_i hlen
    intro hnil
    have hlen2 := congrArg List.length hnil
    simp [maxUndoStack] at hlen hlen2
    subst hlen2
    simp at hlen
  · simp

theorem doRedo_of_redoStack_nil (e : EState) (h : e.redoStack = []) :
    doRedo e = e := by
  unfold doRedo
  rw [h]
  rfl

/-- Undo then redo restores the lines and cursor whenever the undo stack is
nonempty (general round-trip helper). -/
theorem doRedo_doUndo_roundtrip (e : EState) (h : e.undoStack ≠ []) :
    (doRedo (doUndo e)).lines = e.lines ∧
    (doRedo (doUndo e)).cursorRow = e.cursorRow ∧
    (doRedo (doUndo e)).cursorCol = e.cursorCol := by
  rcases hl : e.undoStack.getLast? with _ | snap
  · rw [List.getLast?_eq_none_iff] at hl
    exact absurd hl h
  · unfold doUndo
    rw [hl]
    unfold doRedo
    simp [List.getLast?_concat, snapshot]

/-! ## Word characters and scanning -/

/-- `isWordByte`: ASCII letter, digit or underscore. -/
def isWordByte (c : Char) : Bool :=
  decide (('a' ≤ c ∧ c ≤ 'z') ∨ ('A' ≤ c ∧ c ≤ 'Z') ∨ ('0' ≤ c ∧ c ≤ '9') ∨ c = '_')

/-- ASCII upper-casing of one character (the effect of `strings.ToUpper` on
the ASCII-oriented text the editor handles). -/
def upperChar (c : Char) : Char :=
  if 'a' ≤ c ∧ c ≤ 'z' then Char.ofNat (c.toNat - 32) else c

/-- `strings.ToUpper` on a line (ASCII model). -/
def toUpperStr (s : Str) : Str := s.map upperChar

/-- Fuel-indexed body of `skipFwd` (structural recursion so that concrete
evaluation reduces in the kernel; the fuel `line.length - col` makes it
extensionally the Go loop). -/
def skipFwdAux (p : Char → Bool) (line : Str) : Nat → Nat → Nat
  | 0, col => col
  | fuel + 1, col =>
    if col < line.length then
      if p (line.getD col ' ') then skipFwdAux p line fuel (col + 1) else col
    else col

/-- The scan-forward loop `for col < len(line) && p(line[col]) { col++ }`. -/
def skipFwd (p : Char → Bool) (line : Str) (col : Nat) : Nat :=
  skipFwdAux p line (line.length - col) col

/-- The scan-backward loop `for col > 0 && p(line[col-1]) { col-- }`. -/
def skipBwd (p : Char → Bool) (line : Str) : Nat → Nat
  | 0 => 0
  | col + 1 => if p (line.getD col ' ') then skipBwd p line col else col + 1

/-- `wordLeftLocked`: at column 0 cross to the previous line's end; otherwise
scan left over non-word characters, then over word characters. -/
def wordLeftLocked (e : EState) : EState :=
  let line := curLine e
  if e.cursorCol = 0 then
    if 0 < e.cursorRow then
      { e with cursorRow := e.cursorRow - 1,
               cursorCol := (e.lines.getD (e.cursorRow - 1) []).length }
    else e
  else
    let col := skipBwd (fun c => !isWordByte c) line e.cursorCol
    let col := skipBwd isWordByte line col
    { e with cursorCol := col }

/-- `wordRightLocked`: at end-of-line cross to the next line's start;
otherwise scan right over word characters, then over non-word characters. -/
def wordRightLocked (e : EState) : EState :=
  let line := curLine e
  if line.length ≤ e.cursorCol then
    if e.cursorRow < e.lines.length - 1 then
      { e with cursorRow := e.cursorRow + 1, cursorCol := 0 }
    else e
  else
    let col := skipFwd isWordByte line e.cursorCol
    let col := skipFwd (fun c => !isWordByte c) line col
    { e with cursorCol := col }

/-! ## Autocomplete resolver -/

/-- The backtick character (U+0060). -/
def btick : Char := Char.ofNat 96

/-- The characters `dottedExprBeforeCursorLocked` walks across: word bytes,
dot, backtick, hyphen. -/
def isDottedByte (c : Char) : Bool :=
  isWordByte c || c == '.' || c == btick || c == '-'

/-- `wordBeforeCursorLocked`: the run of word characters immediately left of
the cursor. -/
def wordBeforeCursorLocked (e : EState) : Str :=
  let line := curLine e
  let start := skipBwd isWordByte line e.cursorCol
  (line.take e.cursorCol).drop start

/-- `dottedExprBeforeCursorLocked`: walk left across word/dot/backtick/hyphen
characters, strip backticks; `none` when the captured run has no dot
(caller uses flat completion). -/
def dottedExprBeforeCursorLocked (e : EState) : Option (List Str) :=
  let line := curLine e
  let col := if line.length < e.cursorCol then line.length else e.cursorCol
  let start := skipBwd isDottedByte line col
  let expr := ((line.take col).drop start).filter (fun c => !(c == btick))
  if expr.contains '.' then some (splitOnChar '.' expr) else none

/-- Association-list lookup, embedding Go map indexing (keys unique). -/
def lookupA {α : Type} (k : Str) : List (Str × α) → Option α
  | [] => none
  | (k', v) :: rest => if k' = k then some v else lookupA k rest

/-- Lexicographic byte-order on strings (Go string `<`, ASCII model). -/
def leStr : Str → Str → Bool
  | [], _ => true
  | _ :: _, [] => false
  | a :: as, b :: bs =>
    if a.toNat < b.toNat then true
    else if b.toNat < a.toNat then false
    else leStr as bs

/-- Insertion step of `sortStrs`. -/
def insertStr (x : Str) : List Str → List Str
  | [] => [x]
  | y :: ys => if leStr x y then x :: y :: ys else y :: insertStr x ys

/-- `sort.Strings`, extensionally: the Go code ranges over a map in
unspecified order and then sorts, so the result is the ascending key list;
embedded as an insertion sort by `leStr`. -/
def sortStrs : List Str → List Str
  | [] => []
  | x :: xs => insertStr x (sortStrs xs)

/-- `hideACPopup` (logical part): the popup becomes invisible. -/
def hideACPopup (e : EState) : EState := { e with acVisible := false }

/-- `showACPopup` (logical part): the popup becomes visible; the dropdown
geometry it also computes is rendering-only and out of scope. -/
def showACPopup (e : EState) : EState := { e with acVisible := true }

/-- The `switch len(parts)` of `updateAutocomplete`'s dotted branch:
`(candidates, fragment, project)`. Two segments: dataset names under the
project, collected from the map and sorted by `sort.Strings`. Three
segments: table names under project.dataset, as stored. Anything else
leaves all three at their zero values. -/
def acSegments (parts : List Str) (pd : ProjData) : List Str × Str × Str :=
  if parts.length = 2 then
    let project := parts.getD 0 []
    let cands := sortStrs (match lookupA project pd with
      | some dsMap => dsMap.map Prod.fst
      | none => [])
    (cands, parts.getD 1 [], project)
  else if parts.length = 3 then
    let project := parts.getD 0 []
    let cands := match lookupA project pd with
      | some dsMap => (lookupA (parts.getD 1 []) dsMap).getD []
      | none => []
    (cands, parts.getD 2 [], project)
  else ([], [], [])

/-- The load-deduplication step of `updateAutocomplete`: when the project is
nonempty and absent from the hierarchy, mark it requested (only if not
already marked) and fire `OnProjectNeeded` when it is set and the project
was not already requested. Returns the updated state and the projects
passed to the callback. -/
def acRequestLoad (project : Str) (pd : ProjData) (e : EState) : EState × List Str :=
  if project ≠ [] ∧ lookupA project pd = none then
    let already := e.acLoadRequested.contains project
    ({ e with acLoadRequested :=
        if already then e.acLoadRequested else e.acLoadRequested ++ [project] },
      if !already && e.hasOnProjectNeeded then [project] else [])
  else (e, [])

/-- The filter/popup step of `updateAutocomplete`'s dotted branch:
case-insensitive prefix filter on the candidates, excluding an exact
case-insensitive match when the fragment is nonempty; show the popup only
when the filtered list is nonempty. -/
def acDottedFilter (candidates : List Str) (pre : Str) (e : EState) : EState :=
  if 0 < candidates.length ∨ pre = [] then
    let upPre := toUpperStr pre
    let filtered := candidates.filter
      (fun c => upPre.isPrefixOf (toUpperStr c) && (upPre == [] || !(toUpperStr c == upPre)))
    if 0 < filtered.length then
      showACPopup { e with acPrefix := pre, acFiltered := filtered, acSelected := 0 }
    else hideACPopup e
  else hideACPopup e

/-- `updateAutocomplete`: recompute the autocomplete state from the buffer.
The dotted branch (dotted expression before the cursor, hierarchy present)
does context path completion plus async-load dedup; otherwise the flat
branch filters `completions` by the word before the cursor. Returns the new
state and the projects passed to `OnProjectNeeded`. -/
def updateAutocomplete (e : EState) : EState × List Str :=
  match dottedExprBeforeCursorLocked e, e.acProjectData with
  | some parts, some pd =>
    let seg := acSegments parts pd
    let rl := acRequestLoad seg.2.2 pd e
    (acDottedFilter seg.1 seg.2.1 rl.1, rl.2)
  | _, _ =>
    let pre := wordBeforeCursorLocked e
    let e1 := { e with acPrefix := pre }
    if pre = [] ∨ e1.completions = [] then (hideACPopup e1, [])
    else
      let upPre := toUpperStr pre
      let filtered := e1.completions.filter
        (fun c => upPre.isPrefixOf (toUpperStr c) && !(toUpperStr c == upPre))
      if filtered = [] then (hideACPopup e1, [])
      else (showACPopup { e1 with acFiltered := filtered, acSelected := 0 }, [])

/-- `SetProjectData`: replace the hierarchy, reset the load tracker, and
re-run autocomplete so freshly loaded data appears immediately. -/
def SetProjectData (d : ProjData) (e : EState) : EState × List Str :=
  updateAutocomplete { e with acProjectData := some d, acLoadRequested := [] }

/-! ## Edit operations -/

/-- `updateAutocomplete` applied for its state change only (the edit paths in
`TypedRune` / `TypedKey` invoke it after notifying). -/
def acResolve (e : EState) : EState := (updateAutocomplete e).1

/-- `orderedSelection`: `(startRow, startCol, endRow, endCol)` with the
smaller `(row, col)` first. -/
def orderedSelection (e : EState) : Nat × Nat × Nat × Nat :=
  if e.anchorRow < e.cursorRow ∨ (e.anchorRow = e.cursorRow ∧ e.anchorCol ≤ e.cursorCol) then
    (e.anchorRow, e.anchorCol, e.cursorRow, e.cursorCol)
  else
    (e.cursorRow, e.cursorCol, e.anchorRow, e.anchorCol)

/-- `deleteSelectionLocked`: remove the selected range, put the cursor at the
selection start and clear the selection (no-op without a selection). -/
def deleteSelectionLocked (e : EState) : EState :=
  if e.hasSelection then
    let o := orderedSelection e
    let sRow := o.1; let sCol := o.2.1; let eRow := o.2.2.1; let eCol := o.2.2.2
    let before := (e.lines.getD sRow []).take sCol
    let after := (e.lines.getD eRow []).drop eCol
    let lines1 := e.lines.set sRow (before ++ after)
    let lines2 := if sRow < eRow then lines1.take (sRow + 1) ++ lines1.drop (eRow + 1) else lines1
    { e with lines := lines2, cursorRow := sRow, cursorCol := sCol, hasSelection := false }
  else e

/-- `TypedRune`: snapshot, delete any selection, splice the rune at the
cursor, advance one column, then re-run autocomplete. -/
def typedRune (c : Char) (e : EState) : EState :=
  let e := saveUndoLocked e
  let e := if e.hasSelection then deleteSelectionLocked e else e
  let line := curLine e
  acResolve { e with
    lines := e.lines.set e.cursorRow (line.take e.cursorCol ++ [c] ++ line.drop e.cursorCol),
    cursorCol := e.cursorCol + 1 }

/-- The `KeyReturn` edit branch of `TypedKey` (popup not visible): snapshot,
delete any selection, split the current line at the cursor, and move to
column 0 of the new line; autocomplete is then re-run. -/
def keyReturnEdit (e : EState) : EState :=
  let e := saveUndoLocked e
  let e := if e.hasSelection then deleteSelectionLocked e else e
  let line := curLine e
  let before := line.take e.cursorCol
  let after := line.drop e.cursorCol
  let lines1 := e.lines.set e.cursorRow before
  let lines2 := lines1.take (e.cursorRow + 1) ++ [after] ++ lines1.drop (e.cursorRow + 1)
  acResolve { e with lines := lines2, cursorRow := e.cursorRow + 1, cursorCol := 0 }

/-- The `KeyBackspace` branch of `TypedKey`: snapshot, then delete the
selection, or the preceding character, or join onto the previous line at
column 0; autocomplete is then re-run. -/
def keyBackspaceEdit (e : EState) : EState :=
  let e := saveUndoLocked e
  acResolve <|
    if e.hasSelection then deleteSelectionLocked e
    else if 0 < e.cursorCol then
      let line := curLine e
      { e with
        lines := e.lines.set e.cursorRow (line.take (e.cursorCol - 1) ++ line.drop e.cursorCol),
        cursorCol := e.cursorCol - 1 }
    else if 0 < e.cursorRow then
      let prevLen := (e.lines.getD (e.cursorRow - 1) []).length
      let lines1 := e.lines.set (e.cursorRow - 1)
        (e.lines.getD (e.cursorRow - 1) [] ++ curLine e)
      { e with lines := lines1.take e.cursorRow ++ lines1.drop (e.cursorRow + 1),
               cursorRow := e.cursorRow - 1, cursorCol := prevLen }
    else e

/-- The `KeyDelete` branch of `TypedKey`: snapshot, then delete the
selection, or the character under the cursor, or join the next line onto
the current one at end-of-line; autocomplete is then re-run. -/
def keyDeleteEdit (e : EState) : EState :=
  let e := saveUndoLocked e
  acResolve <|
    if e.hasSelection then deleteSelectionLocked e
    else
      let line := curLine e
      if e.cursorCol < line.length then
        { e with lines := e.lines.set e.cursorRow (line.take e.cursorCol ++ line.drop (e.cursorCol + 1)) }
      else if e.cursorRow < e.lines.length - 1 then
        let lines1 := e.lines.set e.cursorRow (line ++ e.lines.getD (e.cursorRow + 1) [])
        { e with lines := lines1.take (e.cursorRow + 1) ++ lines1.drop (e.cursorRow + 2) }
      else e

/-- The `KeyTab` edit branch of `TypedKey` (popup not visible): snapshot,
delete any selection, insert four spaces, advance four columns;
autocomplete is then re-run. -/
def keyTabEdit (e : EState) : EState :=
  let e := saveUndoLocked e
  let e := if e.hasSelection then deleteSelectionLocked e else e
  let line := curLine e
  acResolve { e with
    lines := e.lines.set e.cursorRow
      (line.take e.cursorCol ++ [' ', ' ', ' ', ' '] ++ line.drop e.cursorCol),
    cursorCol := e.cursorCol + 4 }

/-- `doPaste` with the clipboard payload as argument: no-op on an empty
payload; otherwise snapshot, delete any selection, splice a single-segment
payload inline, or splice a multi-segment payload as first segment +
interior lines + last segment prepended to the tail. -/
def doPaste (content : Str) (e : EState) : EState :=
  if content = [] then e
  else
    let pasteLines := splitOnChar '\n' content
    let e := saveUndoLocked e
    let e := if e.hasSelection then deleteSelectionLocked e else e
    let line := curLine e
    let before := line.take e.cursorCol
    let after := line.drop e.cursorCol
    if pasteLines.length = 1 then
      let p := pasteLines.getD 0 []
      { e with lines := e.lines.set e.cursorRow (before ++ p ++ after),
               cursorCol := e.cursorCol + p.length }
    else
      let first := pasteLines.getD 0 []
      let lastP := (pasteLines.getLast?).getD []
      let middle := (pasteLines.drop 1).dropLast
      let lines1 := e.lines.set e.cursorRow (before ++ first)
      let lines2 := lines1.take (e.cursorRow + 1) ++ middle ++ [lastP ++ after]
        ++ lines1.drop (e.cursorRow + 1)
      { e with lines := lines2,
               cursorRow := e.cursorRow + (pasteLines.length - 1),
               cursorCol := lastP.length }

/-- `doCut`: no-op without a selection; otherwise snapshot and delete the
selection (the clipboard write is out of scope). -/
def doCut (e : EState) : EState :=
  if e.hasSelection then deleteSelectionLocked (saveUndoLocked e) else e

/-- `doSelectAll`: no-op on a single empty line; otherwise anchor `(0,0)`,
cursor at the end of the last line. -/
def doSelectAll (e : EState) : EState :=
  if e.lines.length = 1 ∧ e.lines.getD 0 [] = [] then e
  else
    { e with anchorRow := 0, anchorCol := 0,
             cursorRow := e.lines.length - 1,
             cursorCol := (e.lines.getD (e.lines.length - 1) []).length,
             hasSelection := true }

/-- `acceptCompletion`: no-op unless the popup is visible with candidates;
otherwise clamp the selected index (a `Nat` here, so only the `>= len`
overflow of the Go `sel < 0 || sel >= len` check can fire), compute the
suffix of the chosen candidate past the prefix, snapshot, splice the suffix
at the cursor, advance by its length and hide the popup. -/
def acceptCompletion (e : EState) : EState :=
  if e.acVisible = true ∧ e.acFiltered ≠ [] then
    let sel := if e.acSelected < e.acFiltered.length then e.acSelected else 0
    let completion := e.acFiltered.getD sel []
    let suffix := completion.drop e.acPrefix.length
    let e := saveUndoLocked e
    let line := curLine e
    hideACPopup
      { e with
        lines := e.lines.set e.cursorRow (line.take e.cursorCol ++ suffix ++ line.drop e.cursorCol),
        cursorCol := e.cursorCol + suffix.length }
  else e

/-- `SetText`: replace the content (empty text becomes one empty line),
cursor at the end of the last line, selection cleared. -/
def setText (t : Str) (e : EState) : EState :=
  let ls := if t = [] then [[]] else splitOnChar '\n' t
  { e with lines := ls,
           cursorRow := ls.length - 1,
           cursorCol := (ls.getD (ls.length - 1) []).length,
           hasSelection := false }

/-- `Text`: the lines joined with newlines. -/
def textOf (e : EState) : Str := joinChar '\n' e.lines

/-! ## Frame lemmas -/

/-- `updateAutocomplete` only rewrites autocomplete fields: the buffer,
cursor, selection, stacks, completion sources and callback flag are
untouched, and the load tracker only grows. -/
theorem acResolve_core (e : EState) :
    (acResolve e).lines = e.lines ∧
    (acResolve e).cursorRow = e.cursorRow ∧
    (acResolve e).cursorCol = e.cursorCol ∧
    (acResolve e).hasSelection = e.hasSelection ∧
    (acResolve e).undoStack = e.undoStack ∧
    (acResolve e).redoStack = e.redoStack ∧
    (acResolve e).completions = e.completions ∧
    (acResolve e).acProjectData = e.acProjectData ∧
    (acResolve e).hasOnProjectNeeded = e.hasOnProjectNeeded ∧
    (∀ k, k ∈ e.acLoadRequested → k ∈ (acResolve e).acLoadRequested) := by
  unfold acResolve updateAutocomplete acDottedFilter acRequestLoad hideACPopup showACPopup
  rcases hdt : dottedExprBeforeCursorLocked e with _ | parts <;>
    rcases hpd : e.acProjectData with _ | pd <;>
      simp only [] <;> (repeat' split) <;> simp_all

theorem deleteSelectionLocked_stacks (e : EState) :
    (deleteSelectionLocked e).undoStack = e.undoStack ∧
    (deleteSelectionLocked e).redoStack = e.redoStack := by
  unfold deleteSelectionLocked
  split <;> simp

theorem ne_nil_of_length_pos' {α : Type} {l : List α} (h : 0 < l.length) : l ≠ [] := by
  intro hn
  subst hn
  simp at h

theorem deleteSelectionLocked_lines_ne (e : EState) (h : e.lines ≠ []) :
    (deleteSelectionLocked e).lines ≠ [] := by
  unfold deleteSelectionLocked
  have hl : 0 < e.lines.length := List.length_pos.mpr h
  split
  · simp only []
    split
    · apply ne_nil_of_length_pos'
      simp only [List.length_append, List.length_take, List.length_drop, List.length_set]
      omega
    · simpa [List.length_pos] using hl
  · exact h

/-! ## The edit operations as one type -/

/-- The destructive edit operations that are not themselves undo/redo:
character insert, newline split, backspace, forward delete, tab insert,
paste (with its clipboard payload), cut, accept-completion. -/
inductive EditOp where
  | rune (c : Char)
  | ret
  | backspace
  | del
  | tab
  | paste (content : Str)
  | cut
  | accept
deriving DecidableEq

/-- Dispatch an edit operation. -/
def applyEdit : EditOp → EState → EState
  | .rune c, e => typedRune c e
  | .ret, e => keyReturnEdit e
  | .backspace, e => keyBackspaceEdit e
  | .del, e => keyDeleteEdit e
  | .tab, e => keyTabEdit e
  | .paste s, e => doPaste s e
  | .cut, e => doCut e
  | .accept, e => acceptCompletion e

/-- Whether the operation actually performs an edit (the source's early
returns: cut needs a selection, paste a nonempty payload,
accept-completion a visible popup with candidates; the rest always
edit). -/
def opFires : EditOp → EState → Prop
  | .paste s, _ => s ≠ []
  | .cut, e => e.hasSelection = true
  | .accept, e => e.acVisible = true ∧ e.acFiltered ≠ []
  | _, _ => True

theorem applyEdit_of_not_fires (op : EditOp) (e : EState) (h : ¬ opFires op e) :
    applyEdit op e = e := by
  cases op with
  | paste s =>
    simp only [opFires, ne_eq, not_not] at h
    simp [applyEdit, doPaste, h]
  | cut =>
    simp only [opFires] at h
    simp only [applyEdit, doCut]
    rw [if_neg]
    simpa using h
  | accept =>
    simp only [opFires] at h
    simp only [applyEdit, acceptCompletion]
    rw [if_neg h]
  | rune c => exact absurd trivial h
  | ret => exact absurd trivial h
  | backspace => exact absurd trivial h
  | del => exact absurd trivial h
  | tab => exact absurd trivial h

/-- Every firing edit snapshots the pre-edit state onto the undo stack (first
thing it does) and clears the redo stack; nothing later in the operation
touches either stack. -/
theorem applyEdit_stacks (op : EditOp) (e : EState) (h : opFires op e) :
    (applyEdit op e).undoStack = pushBounded (snapshot e) e.undoStack ∧
    (applyEdit op e).redoStack = [] := by
  have hd := fun t => deleteSelectionLocked_stacks t
  cases op with
  | rune c =>
    simp only [applyEdit, typedRune]
    obtain ⟨-, -, -, -, hu, hr, -⟩ := acResolve_core _
    rw [hu, hr]
    split <;> simp [(hd _).1, (hd _).2, saveUndoLocked]
  | ret =>
    simp only [applyEdit, keyReturnEdit]
    obtain ⟨-, -, -, -, hu, hr, -⟩ := acResolve_core _
    rw [hu, hr]
    split <;> simp [(hd _).1, (hd _).2, saveUndoLocked]
  | backspace =>
    simp only [applyEdit, keyBackspaceEdit]
    obtain ⟨-, -, -, -, hu, hr, -⟩ := acResolve_core _
    rw [hu, hr]
    split_ifs <;> simp [(hd _).1, (hd _).2, saveUndoLocked]
  | del =>
    simp only [applyEdit, keyDeleteEdit]
    obtain ⟨-, -, -, -, hu, hr, -⟩ := acResolve_core _
    rw [hu, hr]
    split_ifs <;> simp [(hd _).1, (hd _).2, saveUndoLocked]
  | tab =>
    simp only [applyEdit, keyTabEdit]
    obtain ⟨-, -, -, -, hu, hr, -⟩ := acResolve_core _
    rw [hu, hr]
    split <;> simp [(hd _).1, (hd _).2, saveUndoLocked]
  | paste s =>
    simp only [opFires] at h
    simp only [applyEdit, doPaste]
    rw [if_neg h]
    split_ifs <;> simp [(hd _).1, (hd _).2, saveUndoLocked]
  | cut =>
    simp only [opFires] at h
    simp only [applyEdit, doCut]
    rw [if_pos h]
    simp [(hd _).1, (hd _).2, saveUndoLocked]
  | accept =>
    simp only [opFires] at h
    simp only [applyEdit, acceptCompletion]
    rw [if_pos h]
    simp [hideACPopup, saveUndoLocked]

theorem mem_pushBounded {u v : UndoEntry} {st : List UndoEntry}
    (h : u ∈ pushBounded v st) : u ∈ st ∨ u = v := by
  unfold pushBounded at h
  simp only [] at h
  split at h
  · have := List.drop_subset 1 (st ++ [v]) h
    simpa using this
  · simpa using h

/-- **C2.** For every editor state and every single edit operation
(character insert, backspace/delete, newline split, tab insert, paste, cut,
accept-completion) that performs an edit, undo (`doUndo`) immediately
followed by redo (`doRedo`) restores exactly the lines and the (row, col)
cursor that held immediately before the undo: the edit leaves the undo
stack nonempty, and undo-then-redo is then the identity on
`(lines, cursor)`. -/
theorem C2_undo_then_redo_roundtrip (op : EditOp) (e : EState) (h : opFires op e) :
    (doRedo (doUndo (applyEdit op e))).lines = (applyEdit op e).lines ∧
    (doRedo (doUndo (applyEdit op e))).cursorRow = (applyEdit op e).cursorRow ∧
    (doRedo (doUndo (applyEdit op e))).cursorCol = (applyEdit op e).cursorCol := by
  apply doRedo_doUndo_roundtrip
  rw [(applyEdit_stacks op e h).1]
  exact pushBounded_ne_nil _ _

/-- Witness for C2: inserting `x` into the one-line buffer `a`, then undo,
then redo. -/
theorem C2_undo_then_redo_roundtrip_witness :
    opFires (.rune 'x') (mkState ["a".toList] 0 1) ∧
    (doRedo (doUndo (applyEdit (.rune 'x') (mkState ["a".toList] 0 1)))).lines
      = (applyEdit (.rune 'x') (mkState ["a".toList] 0 1)).lines :=
  ⟨trivial, (C2_undo_then_redo_roundtrip (.rune 'x') (mkState ["a".toList] 0 1) trivial).1⟩

/-- **C3.** Every destructive edit operation that is not itself an undo or
redo, when it performs an edit, first snapshots the pre-edit lines and
cursor onto the undo stack (bounded push) and clears the redo stack;
consequently, after any such edit — in particular after an edit following
an undo — `doRedo` performs no redo and leaves the state unchanged. -/
theorem C3_edit_snapshots_and_clears_redo (op : EditOp) (e : EState) (h : opFires op e) :
    (applyEdit op e).undoStack = pushBounded (snapshot e) e.undoStack ∧
    (applyEdit op e).redoStack = [] ∧
    doRedo (applyEdit op e) = applyEdit op e := by
  obtain ⟨h1, h2⟩ := applyEdit_stacks op e h
  exact ⟨h1, h2, doRedo_of_redoStack_nil _ h2⟩

/-- Witness for C3: a backspace on a state reachable after an undo (one redo
entry pending); the edit clears the redo stack and redo is then a no-op. -/
theorem C3_edit_snapshots_and_clears_redo_witness :
    opFires .backspace (doUndo (applyEdit (.rune 'x') (mkState ["a".toList] 0 1))) ∧
    (applyEdit .backspace (doUndo (applyEdit (.rune 'x') (mkState ["a".toList] 0 1)))).redoStack = [] ∧
    doRedo (applyEdit .backspace (doUndo (applyEdit (.rune 'x') (mkState ["a".toList] 0 1))))
      = applyEdit .backspace (doUndo (applyEdit (.rune 'x') (mkState ["a".toList] 0 1))) := by
  refine ⟨trivial, ?_, ?_⟩
  · exact (C3_edit_snapshots_and_clears_redo .backspace _ trivial).2.1
  · exact (C3_edit_snapshots_and_clears_redo .backspace _ trivial).2.2

/-! ## The lines-never-empty invariant (C9) -/

theorem set_ne_nil {l : List Str} {n : Nat} {a : Str} (h : l ≠ []) : l.set n a ≠ [] := by
  apply ne_nil_of_length_pos'
  simpa [List.length_set] using List.length_pos.mpr h

theorem take_append_drop_ne_nil {l : List Str} {n m : Nat} (hn : 0 < n) (h : l ≠ []) :
    l.take n ++ l.drop m ≠ [] := by
  apply ne_nil_of_length_pos'
  have := List.length_pos.mpr h
  simp only [List.length_append, List.length_take, List.length_drop]
  omega

theorem applyEdit_lines_ne (op : EditOp) (e : EState) (h : e.lines ≠ []) :
    (applyEdit op e).lines ≠ [] := by
  have hs : (saveUndoLocked e).lines ≠ [] := h
  cases op with
  | rune c =>
    simp only [applyEdit, typedRune]
    obtain ⟨hl, -⟩ := acResolve_core _
    rw [hl]
    split
    · exact set_ne_nil (deleteSelectionLocked_lines_ne _ hs)
    · exact set_ne_nil hs
  | ret =>
    simp only [applyEdit, keyReturnEdit]
    obtain ⟨hl, -⟩ := acResolve_core _
    rw [hl]
    apply ne_nil_of_length_pos'
    simp only [List.length_append, List.length_take, List.length_drop,
      List.length_cons, List.length_nil]
    omega
  | backspace =>
    simp only [applyEdit, keyBackspaceEdit]
    obtain ⟨hl, -⟩ := acResolve_core _
    rw [hl]
    split_ifs with h1 h2 h3
    · exact deleteSelectionLocked_lines_ne _ hs
    · exact set_ne_nil hs
    · exact take_append_drop_ne_nil h3 (set_ne_nil hs)
    · exact hs
  | del =>
    simp only [applyEdit, keyDeleteEdit]
    obtain ⟨hl, -⟩ := acResolve_core _
    rw [hl]
    split_ifs with h1 h2 h3
    · exact deleteSelectionLocked_lines_ne _ hs
    · exact set_ne_nil hs
    · exact take_append_drop_ne_nil (Nat.succ_pos _) (set_ne_nil hs)
    · exact hs
  | tab =>
    simp only [applyEdit, keyTabEdit]
    obtain ⟨hl, -⟩ := acResolve_core _
    rw [hl]
    split
    · exact set_ne_nil (deleteSelectionLocked_lines_ne _ hs)
    · exact set_ne_nil hs
  | paste s =>
    simp only [applyEdit, doPaste]
    split_ifs with h1 h2 h3 h4 <;>
      first
        | exact h
        | exact set_ne_nil (deleteSelectionLocked_lines_ne _ hs)
        | exact set_ne_nil hs
        | (apply ne_nil_of_length_pos'
           simp only [List.length_append, List.length_take, List.length_drop,
             List.length_cons, List.length_nil]
           omega)
  | cut =>
    simp only [applyEdit, doCut]
    split
    · exact deleteSelectionLocked_lines_ne _ hs
    · exact h
  | accept =>
    simp only [applyEdit, acceptCompletion]
    split
    · exact set_ne_nil hs
    · exact h

/-- Every editor operation of claim C9: the destructive edits plus SetText,
selection delete, select-all, undo and redo. -/
inductive Op where
  | ed (op : EditOp)
  | setTextOp (t : Str)
  | delSelection
  | selectAll
  | undo
  | redo
deriving DecidableEq

/-- Dispatch an editor operation. -/
def applyOp : Op → EState → EState
  | .ed op, e => applyEdit op e
  | .setTextOp t, e => setText t e
  | .delSelection, e => deleteSelectionLocked e
  | .selectAll, e => doSelectAll e
  | .undo, e => doUndo e
  | .redo, e => doRedo e

/-- The inductive form of the never-empty invariant: the buffer has at least
one line, and so does every snapshot on the undo and redo stacks (so that
undo/redo restores a nonempty buffer). -/
def LinesNE (e : EState) : Prop :=
  e.lines ≠ [] ∧ (∀ u ∈ e.undoStack, u.lines ≠ []) ∧ (∀ u ∈ e.redoStack, u.lines ≠ [])

/-- **C9.** Every editor operation (SetText, character insert,
backspace/delete including line joins, newline split, tab insert, paste,
cut, selection delete, select-all, undo, redo, accept-completion) preserves
the invariant that the lines sequence is non-empty: a buffer with no
content is always one empty line, never zero lines (stated with the
snapshot stacks included, which is what makes the invariant inductive
through undo/redo). -/
theorem C9_lines_never_empty (op : Op) (e : EState) (h : LinesNE e) :
    LinesNE (applyOp op e) := by
  obtain ⟨h1, h2, h3⟩ := h
  cases op with
  | ed op =>
    show LinesNE (applyEdit op e)
    by_cases hf : opFires op e
    · obtain ⟨hu, hr⟩ := applyEdit_stacks op e hf
      refine ⟨applyEdit_lines_ne op e h1, ?_, ?_⟩
      · rw [hu]
        intro u hm
        rcases mem_pushBounded hm with hmem | rfl
        · exact h2 u hmem
        · exact h1
      · rw [hr]
        simp
    · rw [applyEdit_of_not_fires op e hf]
      exact ⟨h1, h2, h3⟩
  | setTextOp t =>
    refine ⟨?_, h2, h3⟩
    show (if t = [] then [[]] else splitOnChar '\n' t) ≠ []
    split
    · simp
    · exact splitOnChar_ne_nil _ _
  | delSelection =>
    obtain ⟨hu, hr⟩ := deleteSelectionLocked_stacks e
    exact ⟨deleteSelectionLocked_lines_ne e h1, hu ▸ h2, hr ▸ h3⟩
  | selectAll =>
    show LinesNE (doSelectAll e)
    unfold doSelectAll
    split
    · exact ⟨h1, h2, h3⟩
    · exact ⟨h1, h2, h3⟩
  | undo =>
    show LinesNE (doUndo e)
    unfold doUndo
    rcases hl : e.undoStack.getLast? with _ | snap
    · exact ⟨h1, h2, h3⟩
    · refine ⟨h2 snap (List.mem_of_getLast?_eq_some hl), ?_, ?_⟩
      · intro u hm
        exact h2 u (List.dropLast_subset _ hm)
      · intro u hm
        rcases List.mem_append.mp hm with hm | hm
        · exact h3 u hm
        · simp only [List.mem_singleton] at hm
          subst hm
          exact h1
  | redo =>
    show LinesNE (doRedo e)
    unfold doRedo
    rcases hl : e.redoStack.getLast? with _ | snap
    · exact ⟨h1, h2, h3⟩
    · refine ⟨h3 snap (List.mem_of_getLast?_eq_some hl), ?_, ?_⟩
      · intro u hm
        rcases List.mem_append.mp hm with hm | hm
        · exact h2 u hm
        · simp only [List.mem_singleton] at hm
          subst hm
          exact h1
      · intro u hm
        exact h3 u (List.dropLast_subset _ hm)

/-- Witness for C9: backspace at `(0,0)` on a one-line buffer keeps one
line. -/
theorem C9_lines_never_empty_witness :
    LinesNE (mkState [[]] 0 0) ∧ LinesNE (applyOp (.ed .backspace) (mkState [[]] 0 0)) := by
  have h0 : LinesNE (mkState [[]] 0 0) := by
    refine ⟨by simp [mkState], ?_, ?_⟩ <;> simp [mkState]
  exact ⟨h0, C9_lines_never_empty (.ed .backspace) _ h0⟩

/-- **C10.** For every string `s` (empty or containing newlines),
`SetText s` followed by `Text` returns exactly `s`: `SetText` splits on
newlines (empty `s` giving one empty line) and `Text` joins with
newlines. -/
theorem C10_text_after_setText (t : Str) (e : EState) :
    textOf (setText t e) = t ∧ (setText [] e).lines = [[]] := by
  constructor
  · show joinChar '\n' (if t = [] then [[]] else splitOnChar '\n' t) = t
    split
    · rename_i ht
      subst ht
      rfl
    · exact joinChar_splitOnChar '\n' t
  · rfl

/-! ## Word-motion characterization (C8) -/

theorem skipFwdAux_eq (p : Char → Bool) (ln : Str) :
    ∀ fuel col, ln.length ≤ col + fuel →
      skipFwdAux p ln fuel col = col + ((ln.drop col).takeWhile p).length := by
  intro fuel
  induction fuel with
  | zero =>
    intro col h
    have hd : ln.drop col = [] := List.drop_of_length_le (by omega)
    simp [skipFwdAux, hd]
  | succ n ih =>
    intro col h
    simp only [skipFwdAux]
    split_ifs with h1 h2
    · have hget : ln.getD col ' ' = ln[col] := by
        simp [List.getD_eq_getElem?_getD, List.getElem?_eq_getElem h1]
      rw [hget] at h2
      rw [ih (col + 1) (by omega)]
      rw [List.drop_eq_getElem_cons h1, List.takeWhile_cons, if_pos h2]
      simp only [List.length_cons]
      omega
    · have hget : ln.getD col ' ' = ln[col] := by
        simp [List.getD_eq_getElem?_getD, List.getElem?_eq_getElem h1]
      rw [hget] at h2
      rw [List.drop_eq_getElem_cons h1, List.takeWhile_cons, if_neg (by simp [h2])]
      simp
    · have hd : ln.drop col = [] := List.drop_of_length_le (by omega)
      simp [hd]

theorem skipFwd_eq (p : Char → Bool) (ln : Str) (col : Nat) :
    skipFwd p ln col = col + ((ln.drop col).takeWhile p).length := by
  unfold skipFwd
  exact skipFwdAux_eq p ln (ln.length - col) col (by omega)

theorem skipBwd_eq (p : Char → Bool) (ln : Str) :
    ∀ col, col ≤ ln.length →
      skipBwd p ln col = col - ((ln.take col).reverse.takeWhile p).length := by
  intro col
  induction col with
  | zero => intro _; simp [skipBwd]
  | succ n ih =>
    intro h
    have hn : n < ln.length := by omega
    have hget : ln.getD n ' ' = ln[n] := by
      simp [List.getD_eq_getElem?_getD, List.getElem?_eq_getElem hn]
    have htake : (ln.take (n + 1)).reverse = ln[n] :: (ln.take n).reverse := by
      rw [List.take_succ, List.getElem?_eq_getElem hn]
      simp
    simp only [skipBwd]
    rw [hget]
    split_ifs with hp
    · rw [ih (by omega), htake, List.takeWhile_cons, if_pos hp]
      simp only [List.length_cons]
      omega
    · rw [htake, List.takeWhile_cons, if_neg (by simp [hp])]
      simp

theorem skipBwd_le (p : Char → Bool) (ln : Str) : ∀ col, skipBwd p ln col ≤ col := by
  intro col
  induction col with
  | zero => simp [skipBwd]
  | succ n ih =>
    simp only [skipBwd]
    split
    · omega
    · omega

/-- The rightward word motion as claim C8 words it: skip a run of non-word
characters, then a run of word characters (the source scans the two runs in
the opposite order). -/
def wordRightPerClaim (e : EState) : EState :=
  let line := curLine e
  if line.length ≤ e.cursorCol then
    if e.cursorRow < e.lines.length - 1 then
      { e with cursorRow := e.cursorRow + 1, cursorCol := 0 }
    else e
  else
    let col := skipFwd (fun c => !isWordByte c) line e.cursorCol
    let col := skipFwd isWordByte line col
    { e with cursorCol := col }

/-- **C8 (counterexample).** On the line `ab cd` with the cursor at column 0,
`wordRightLocked` lands at column 3 (it skips the word run `ab` and then
the space), while the claim's order (non-word run first, then word run)
would land at column 2; so the claim's description of `moveWordRight` does
not match the code. -/
theorem C8_counterexample :
    (wordRightLocked (mkState [("ab cd").toList] 0 0)).cursorCol = 3 ∧
    (wordRightPerClaim (mkState [("ab cd").toList] 0 0)).cursorCol = 2 ∧
    wordRightLocked (mkState [("ab cd").toList] 0 0) ≠
      wordRightPerClaim (mkState [("ab cd").toList] 0 0) := by
  decide

/-- **C8 (amended).** `moveWordLeft`, when not at a line boundary, skips a
contiguous run of non-word characters and then a contiguous run of word
characters (scanning left); `moveWordRight`, when not at a line boundary,
skips a contiguous run of word characters and then a contiguous run of
non-word characters (scanning right); a word character is an ASCII letter,
digit or underscore. At a line boundary (column 0 for left, end-of-line for
right) a single word-motion step only crosses into the adjacent line (to
the previous line's end, or the next line's column 0) without skipping
further. -/
theorem C8_word_motion_runs (s : EState) (c1L c1R : Nat)
    (hc1L : c1L = s.cursorCol -
      (((curLine s).take s.cursorCol).reverse.takeWhile (fun c => !isWordByte c)).length)
    (hc1R : c1R = s.cursorCol + (((curLine s).drop s.cursorCol).takeWhile isWordByte).length) :
    (0 < s.cursorCol → s.cursorCol ≤ (curLine s).length →
      (wordLeftLocked s).lines = s.lines ∧
      (wordLeftLocked s).cursorRow = s.cursorRow ∧
      (wordLeftLocked s).cursorCol =
        c1L - (((curLine s).take c1L).reverse.takeWhile isWordByte).length) ∧
    (s.cursorCol < (curLine s).length →
      (wordRightLocked s).lines = s.lines ∧
      (wordRightLocked s).cursorRow = s.cursorRow ∧
      (wordRightLocked s).cursorCol =
        c1R + (((curLine s).drop c1R).takeWhile (fun c => !isWordByte c)).length) ∧
    (s.cursorCol = 0 → 0 < s.cursorRow →
      (wordLeftLocked s).cursorRow = s.cursorRow - 1 ∧
      (wordLeftLocked s).cursorCol = (s.lines.getD (s.cursorRow - 1) []).length) ∧
    ((curLine s).length ≤ s.cursorCol → s.cursorRow < s.lines.length - 1 →
      (wordRightLocked s).cursorRow = s.cursorRow + 1 ∧
      (wordRightLocked s).cursorCol = 0) := by
  refine ⟨?_, ?_, ?_, ?_⟩
  · intro h1 h2
    unfold wordLeftLocked
    rw [if_neg (by omega)]
    refine ⟨rfl, rfl, ?_⟩
    show skipBwd isWordByte (curLine s) (skipBwd (fun c => !isWordByte c) (curLine s) s.cursorCol) = _
    rw [skipBwd_eq _ _ _ h2, ← hc1L,
      skipBwd_eq _ _ _ (by rw [hc1L]; omega)]
  · intro h1
    unfold wordRightLocked
    rw [if_neg (by omega)]
    refine ⟨rfl, rfl, ?_⟩
    show skipFwd (fun c => !isWordByte c) (curLine s) (skipFwd isWordByte (curLine s) s.cursorCol) = _
    rw [skipFwd_eq (fun c => !isWordByte c), skipFwd_eq isWordByte, ← hc1R]
  · intro h1 h2
    unfold wordLeftLocked
    rw [if_pos h1, if_pos h2]
    exact ⟨rfl, rfl⟩
  · intro h1 h2
    unfold wordRightLocked
    rw [if_pos h1, if_pos h2]
    exact ⟨rfl, rfl⟩

/-- Witness for the amended C8: on `ab cd`, word-left from column 5 lands on
column 3 and word-right from column 0 lands on column 3. -/
theorem C8_word_motion_runs_witness :
    (wordLeftLocked (mkState [("ab cd").toList] 0 5)).cursorCol = 3 ∧
    (wordRightLocked (mkState [("ab cd").toList] 0 0)).cursorCol = 3 := by
  constructor
  · have h := (C8_word_motion_runs (mkState [("ab cd").toList] 0 5) _ _ rfl rfl).1
      (by decide) (by decide)
    rw [h.2.2]
    decide
  · have h := (C8_word_motion_runs (mkState [("ab cd").toList] 0 0) _ _ rfl rfl).2.1
      (by decide)
    rw [h.2.2]
    decide

/-! ## Accepting a completion (C7) -/

/-- **C7.** Accepting a completion with a visible popup and a non-empty
candidate list computes `suffix = candidate[len(prefix):]` for the selected
candidate (the selected index is used as-is when in range, else index 0),
snapshots the buffer onto the undo stack, splices the suffix into the
current line at the cursor column, advances the cursor column by exactly
`len(suffix)`, and hides the popup, leaving all other lines and the cursor
row unchanged. -/
theorem C7_accept_completion_splices_suffix (s : EState) (sel : Nat) (cand suffix : Str)
    (hvis : s.acVisible = true)
    (hne : s.acFiltered ≠ [])
    (hsel : sel = if s.acSelected < s.acFiltered.length then s.acSelected else 0)
    (hcand : cand = s.acFiltered.getD sel [])
    (hsuf : suffix = cand.drop s.acPrefix.length) :
    (acceptCompletion s).lines = s.lines.set s.cursorRow
      ((curLine s).take s.cursorCol ++ suffix ++ (curLine s).drop s.cursorCol) ∧
    (acceptCompletion s).cursorRow = s.cursorRow ∧
    (acceptCompletion s).cursorCol = s.cursorCol + suffix.length ∧
    (acceptCompletion s).acVisible = false ∧
    (acceptCompletion s).undoStack = pushBounded (snapshot s) s.undoStack ∧
    (acceptCompletion s).redoStack = [] ∧
    (∀ i, i ≠ s.cursorRow → (acceptCompletion s).lines.getD i [] = s.lines.getD i []) := by
  subst hsel hcand hsuf
  unfold acceptCompletion
  rw [if_pos ⟨hvis, hne⟩]
  refine ⟨rfl, rfl, rfl, rfl, rfl, rfl, ?_⟩
  intro i hi
  show (s.lines.set s.cursorRow _).getD i [] = s.lines.getD i []
  rw [List.getD_eq_getElem?_getD, List.getD_eq_getElem?_getD,
    List.getElem?_set_ne (fun hh => hi hh.symm), ← List.getD_eq_getElem?_getD]

/-- The C7 scenario state: one line `SEL`, cursor at column 3, popup visible
with candidate `SELECT` for prefix `SEL`. -/
def c7State : EState :=
  { mkState [("SEL").toList] 0 3 with
    acVisible := true, acFiltered := [("SELECT").toList], acPrefix := ("SEL").toList }

/-- Witness for C7: prefix `SEL`, candidate `SELECT` splices `ECT` and
advances the cursor by 3 columns. -/
theorem C7_accept_completion_splices_suffix_witness :
    (acceptCompletion c7State).lines = [("SELECT").toList] ∧
    (acceptCompletion c7State).cursorCol = 6 ∧
    (acceptCompletion c7State).acVisible = false := by
  have h := C7_accept_completion_splices_suffix c7State 0 ("SELECT").toList ("ECT").toList
    rfl (by decide) (by decide) (by decide) (by decide)
  refine ⟨?_, ?_, h.2.2.2.1⟩
  · rw [h.1]
    decide
  · rw [h.2.2.1]
    decide

/-! ## Flat-mode autocomplete (C4) -/

/-- The flat-mode candidate predicate as the spec words it: the
case-insensitive form of the entry starts with the case-insensitive prefix
and is not an exact case-insensitive match of it. -/
abbrev FlatMatch (pre c : Str) : Prop :=
  toUpperStr pre <+: toUpperStr c ∧ toUpperStr c ≠ toUpperStr pre

theorem flatFilter_eq (pre : Str) (cs : List Str) :
    cs.filter (fun c => (toUpperStr pre).isPrefixOf (toUpperStr c) &&
        !(toUpperStr c == toUpperStr pre))
      = cs.filter (fun c => decide (FlatMatch pre c)) := by
  apply List.filter_congr
  intro c _
  rw [Bool.eq_iff_iff]
  simp [FlatMatch]

/-- **C4.** In flat autocomplete mode (no dotted run before the cursor), the
prefix is the contiguous run of word characters immediately left of the
cursor, and the popup is shown exactly when that prefix is nonempty and the
filtered set is nonempty; when shown, the candidate set is exactly the
flat-source entries whose case-insensitive form starts with the
case-insensitive prefix, excluding exact case-insensitive matches, and no
loader call is made. -/
theorem C4_flat_mode_filter (s : EState) (pre : Str) (flt : List Str)
    (hdot : dottedExprBeforeCursorLocked s = none)
    (hpre : pre = wordBeforeCursorLocked s)
    (hflt : flt = s.completions.filter (fun c => decide (FlatMatch pre c))) :
    ((updateAutocomplete s).1.acVisible = true ↔ (pre ≠ [] ∧ flt ≠ [])) ∧
    ((updateAutocomplete s).1.acVisible = true →
      (updateAutocomplete s).1.acFiltered = flt ∧
      (updateAutocomplete s).1.acPrefix = pre) ∧
    (updateAutocomplete s).2 = [] := by
  have hU : updateAutocomplete s =
      (let e1 := { s with acPrefix := wordBeforeCursorLocked s }
       if wordBeforeCursorLocked s = [] ∨ e1.completions = [] then (hideACPopup e1, [])
       else
         let upPre := toUpperStr (wordBeforeCursorLocked s)
         let filtered := e1.completions.filter
           (fun c => upPre.isPrefixOf (toUpperStr c) && !(toUpperStr c == upPre))
         if filtered = [] then (hideACPopup e1, [])
         else (showACPopup { e1 with acFiltered := filtered, acSelected := 0 }, [])) := by
    unfold updateAutocomplete
    rw [hdot]
  subst hpre
  subst hflt
  rw [hU]
  simp only [flatFilter_eq]
  split_ifs with h1 h2
  · refine ⟨?_, ?_, rfl⟩
    · simp only [hideACPopup, Bool.false_eq_true, false_iff]
      rcases h1 with h1 | h1 <;> simp [h1]
    · simp [hideACPopup]
  · refine ⟨?_, ?_, rfl⟩
    · simp only [hideACPopup, Bool.false_eq_true, false_iff]
      exact fun hc => hc.2 h2
    · simp [hideACPopup]
  · push_neg at h1
    refine ⟨?_, ?_, rfl⟩
    · simp only [showACPopup, true_iff]
      exact ⟨h1.1, h2⟩
    · intro _
      exact ⟨rfl, rfl⟩

/-- The C4 scenario state: buffer `SELECT`, cursor at column 6, flat source
`{SELECT, SELECTIVE}`. -/
def c4State : EState :=
  { mkState [("SELECT").toList] 0 6 with
    completions := [("SELECT").toList, ("SELECTIVE").toList] }

/-- Witness for C4: prefix `SELECT` against `{SELECT, SELECTIVE}` filters to
exactly `{SELECTIVE}` and shows the popup. -/
theorem C4_flat_mode_filter_witness :
    (updateAutocomplete c4State).1.acVisible = true ∧
    (updateAutocomplete c4State).1.acFiltered = [("SELECTIVE").toList] := by
  have h := C4_flat_mode_filter c4State (("SELECT").toList) [("SELECTIVE").toList]
    (by decide) (by decide) (by decide)
  have hv : (updateAutocomplete c4State).1.acVisible = true :=
    h.1.mpr ⟨by decide, by decide⟩
  exact ⟨hv, (h.2.1 hv).1⟩

/-! ## Hierarchical autocomplete (C5, C6) -/

theorem updateAC_dotted (s : EState) (parts : List Str) (pd : ProjData)
    (hdot : dottedExprBeforeCursorLocked s = some parts)
    (hpd : s.acProjectData = some pd) :
    updateAutocomplete s =
      (acDottedFilter (acSegments parts pd).1 (acSegments parts pd).2.1
        (acRequestLoad (acSegments parts pd).2.2 pd s).1,
       (acRequestLoad (acSegments parts pd).2.2 pd s).2) := by
  unfold updateAutocomplete
  rw [hdot, hpd]

theorem acSegments_two (p q : Str) (pd : ProjData) :
    acSegments [p, q] pd =
      (sortStrs (match lookupA p pd with
        | some dsMap => dsMap.map Prod.fst
        | none => []), q, p) := rfl

theorem acRequestLoad_found (project : Str) (pd : ProjData) (e : EState)
    (h : lookupA project pd ≠ none) : acRequestLoad project pd e = (e, []) := by
  unfold acRequestLoad
  rw [if_neg]
  intro hc
  exact h hc.2

theorem acDottedFilter_nil (q : Str) (e : EState) :
    acDottedFilter [] q e = hideACPopup e := by
  unfold acDottedFilter
  split_ifs with h1 <;> rfl

theorem toUpperStr_eq_nil {q : Str} : toUpperStr q = [] ↔ q = [] := by
  simp [toUpperStr]

theorem contains_iff_mem' {l : List Str} {a : Str} : l.contains a = true ↔ a ∈ l := by
  simp [List.contains_eq_any_beq, List.any_eq_true, beq_iff_eq, eq_comm]

/-- The dotted-branch candidate predicate as the spec words it: the
case-insensitive form of the entry starts with the case-insensitive
fragment, and entries that exactly match a nonempty fragment are
excluded. -/
abbrev HierMatch (q c : Str) : Prop :=
  toUpperStr q <+: toUpperStr c ∧ (q = [] ∨ toUpperStr c ≠ toUpperStr q)

theorem dottedFilter_eq (q : Str) (cs : List Str) :
    cs.filter (fun c => (toUpperStr q).isPrefixOf (toUpperStr c) &&
        (toUpperStr q == [] || !(toUpperStr c == toUpperStr q)))
      = cs.filter (fun c => decide (HierMatch q c)) := by
  apply List.filter_congr
  intro c _
  rw [Bool.eq_iff_iff]
  simp only [Bool.and_eq_true, Bool.or_eq_true, Bool.not_eq_true', beq_iff_eq,
    beq_eq_false_iff_ne, List.isPrefixOf_iff_prefix, decide_eq_true_eq, HierMatch, ne_eq,
    toUpperStr_eq_nil]

theorem acDottedFilter_spec (cands : List Str) (q : Str) (e : EState) (flt : List Str)
    (hflt : flt = cands.filter (fun c => decide (HierMatch q c))) :
    ((acDottedFilter cands q e).acVisible = true ↔ flt ≠ []) ∧
    ((acDottedFilter cands q e).acVisible = true →
      (acDottedFilter cands q e).acFiltered = flt ∧
      (acDottedFilter cands q e).acPrefix = q) := by
  subst hflt
  unfold acDottedFilter
  simp only [dottedFilter_eq]
  split_ifs with h1 h2
  · constructor
    · simp only [showACPopup, true_iff]
      intro hc
      rw [hc] at h2
      simp at h2
    · intro _
      exact ⟨rfl, rfl⟩
  · constructor
    · simp only [hideACPopup, Bool.false_eq_true, false_iff, ne_eq, not_not]
      exact List.length_eq_zero.mp (by omega)
    · simp [hideACPopup]
  · constructor
    · simp only [hideACPopup, Bool.false_eq_true, false_iff, ne_eq, not_not]
      push_neg at h1
      rw [List.length_eq_zero.mp (by omega : cands.length = 0)]
      rfl
    · simp [hideACPopup]

/-- The dotted-expression parse depends only on the buffer and cursor. -/
theorem dotted_congr (a b : EState) (h1 : a.lines = b.lines)
    (h2 : a.cursorRow = b.cursorRow) (h3 : a.cursorCol = b.cursorCol) :
    dottedExprBeforeCursorLocked a = dottedExprBeforeCursorLocked b := by
  unfold dottedExprBeforeCursorLocked curLine
  rw [h1, h2, h3]

/-- One resolution pass over a 2-segment dotted run whose project is absent
from the hierarchy: no popup, the project is marked requested (if it was
not), and the loader fires only if the project was not already requested
and the callback is set. -/
theorem updateAC_missing (t : EState) (p q : Str) (pd : ProjData)
    (hdot : dottedExprBeforeCursorLocked t = some [p, q])
    (hpd : t.acProjectData = some pd)
    (hp : p ≠ [])
    (hmiss : lookupA p pd = none) :
    (updateAutocomplete t).1.acVisible = false ∧
    (updateAutocomplete t).2 =
      (if t.acLoadRequested.contains p then []
       else if t.hasOnProjectNeeded then [p] else []) ∧
    (updateAutocomplete t).1.acLoadRequested =
      (if t.acLoadRequested.contains p then t.acLoadRequested
       else t.acLoadRequested ++ [p]) := by
  have hseg : acSegments [p, q] pd = ([], q, p) := by
    rw [acSegments_two, hmiss]
    rfl
  have hreq : acRequestLoad p pd t =
      ({ t with acLoadRequested := if t.acLoadRequested.contains p then t.acLoadRequested
          else t.acLoadRequested ++ [p] },
        if !t.acLoadRequested.contains p && t.hasOnProjectNeeded then [p] else []) := by
    unfold acRequestLoad
    rw [if_pos ⟨hp, hmiss⟩]
  rw [updateAC_dotted t [p, q] pd hdot hpd, hseg]
  dsimp only
  rw [hreq]
  dsimp only
  rw [acDottedFilter_nil]
  refine ⟨rfl, ?_, rfl⟩
  by_cases hc : p ∈ t.acLoadRequested <;> simp [contains_iff_mem', hc]

/-- A resolution pass for an already-requested missing project fires no
loader call and preserves the facts needed to repeat the argument. -/
theorem acResolve_missing_step (p q : Str) (pd : ProjData) (t : EState)
    (hdot : dottedExprBeforeCursorLocked t = some [p, q])
    (hpd : t.acProjectData = some pd)
    (hp : p ≠ []) (hmiss : lookupA p pd = none)
    (hfn : t.hasOnProjectNeeded = true)
    (hreq : t.acLoadRequested.contains p = true) :
    (updateAutocomplete t).2 = [] ∧
    dottedExprBeforeCursorLocked (acResolve t) = some [p, q] ∧
    (acResolve t).acProjectData = some pd ∧
    (acResolve t).hasOnProjectNeeded = true ∧
    (acResolve t).acLoadRequested.contains p = true := by
  obtain ⟨hvis, hcalls, hload⟩ := updateAC_missing t p q pd hdot hpd hp hmiss
  obtain ⟨hl, hrow, hcol, -, -, -, -, hpdk, hfnk, -⟩ := acResolve_core t
  refine ⟨by rw [hcalls, if_pos hreq], ?_, by rw [hpdk, hpd], by rw [hfnk, hfn], ?_⟩
  · rw [dotted_congr (acResolve t) t hl hrow hcol, hdot]
  · show (updateAutocomplete t).1.acLoadRequested.contains p = true
    rw [hload, if_pos hreq, hreq]

/-- **C5.** For a project key absent from the hierarchical source
(2-segment dotted run, nonempty project, loader callback set), a resolution
pass shows no popup and invokes `OnProjectNeeded` exactly once for that
key; any number of further resolution passes invoke the loader zero more
times; and a full replacement of the source via `SetProjectData` resets the
in-flight tracker, after which the key is requested once again (shown here
for replacement data that still lacks the key). -/
theorem C5_async_load_dedup (s : EState) (p q : Str) (pd : ProjData)
    (hdot : dottedExprBeforeCursorLocked s = some [p, q])
    (hpd : s.acProjectData = some pd)
    (hp : p ≠ [])
    (hmiss : lookupA p pd = none)
    (hfn : s.hasOnProjectNeeded = true)
    (hnew : p ∉ s.acLoadRequested) :
    (updateAutocomplete s).2 = [p] ∧
    (updateAutocomplete s).1.acVisible = false ∧
    (∀ n, (updateAutocomplete (acResolve^[n] (acResolve s))).2 = []) ∧
    (∀ d n, lookupA p d = none →
      (SetProjectData d (acResolve^[n] (acResolve s))).2 = [p]) := by
  obtain ⟨hvis, hcalls, hload⟩ := updateAC_missing s p q pd hdot hpd hp hmiss
  have hnewc : ¬ s.acLoadRequested.contains p = true :=
    fun hx => hnew (contains_iff_mem'.mp hx)
  have h1 : (updateAutocomplete s).2 = [p] := by
    rw [hcalls, if_neg hnewc, if_pos hfn]
  have hP0 : dottedExprBeforeCursorLocked (acResolve s) = some [p, q] ∧
      (acResolve s).acProjectData = some pd ∧
      (acResolve s).hasOnProjectNeeded = true ∧
      (acResolve s).acLoadRequested.contains p = true := by
    obtain ⟨hl, hrow, hcol, -, -, -, -, hpdk, hfnk, -⟩ := acResolve_core s
    refine ⟨by rw [dotted_congr (acResolve s) s hl hrow hcol, hdot],
      by rw [hpdk, hpd], by rw [hfnk, hfn], ?_⟩
    show (updateAutocomplete s).1.acLoadRequested.contains p = true
    rw [hload, if_neg hnewc]
    exact contains_iff_mem'.mpr (by simp)
  have hPn : ∀ n, dottedExprBeforeCursorLocked (acResolve^[n] (acResolve s)) = some [p, q] ∧
      (acResolve^[n] (acResolve s)).acProjectData = some pd ∧
      (acResolve^[n] (acResolve s)).hasOnProjectNeeded = true ∧
      (acResolve^[n] (acResolve s)).acLoadRequested.contains p = true := by
    intro n
    induction n with
    | zero => simpa using hP0
    | succ n ih =>
      rw [Function.iterate_succ_apply']
      obtain ⟨hd, hpd', hfn', hreq'⟩ := ih
      obtain ⟨-, h2, h3, h4, h5⟩ := acResolve_missing_step p q pd _ hd hpd' hp hmiss hfn' hreq'
      exact ⟨h2, h3, h4, h5⟩
  refine ⟨h1, hvis, ?_, ?_⟩
  · intro n
    obtain ⟨hd, hpd', hfn', hreq'⟩ := hPn n
    exact (acResolve_missing_step p q pd _ hd hpd' hp hmiss hfn' hreq').1
  · intro d n hd0
    obtain ⟨hd, hpd', hfn', hreq'⟩ := hPn n
    unfold SetProjectData
    obtain ⟨-, hcalls', -⟩ := updateAC_missing
      { acResolve^[n] (acResolve s) with acProjectData := some d, acLoadRequested := [] } p q d
      ((dotted_congr _ _ rfl rfl rfl).trans hd) rfl hp hd0
    rw [hcalls']
    show (if ([] : List Str).contains p = true then _ else _) = [p]
    rw [if_neg (by simp [List.contains])]
    exact if_pos hfn'

/-- The C5 scenario state: buffer `unknown-proj.`, empty hierarchical
source, loader callback set. -/
def c5State : EState :=
  { mkState [("unknown-proj.").toList] 0 13 with
    acProjectData := some [], hasOnProjectNeeded := true }

/-- Witness for C5: resolving `unknown-proj.` fires the loader once; an
immediate second resolution fires it zero more times. -/
theorem C5_async_load_dedup_witness :
    (updateAutocomplete c5State).2 = [("unknown-proj").toList] ∧
    (updateAutocomplete (acResolve c5State)).2 = [] := by
  have h := C5_async_load_dedup c5State (("unknown-proj").toList) [] []
    (by decide) rfl (by decide) rfl rfl (by decide)
  refine ⟨h.1, ?_⟩
  have h3 := h.2.2.1 0
  simpa using h3

/-- **C6 (counterexample).** With the hierarchical source storing project
`p`'s datasets in the order `b, a` and the buffer `p.` (2-segment run with
empty fragment), the code shows `[a, b]` — `sort.Strings` order — while the
claim's "unsorted order as stored" would be `[b, a]`. -/
def c6pd : ProjData := [(("p").toList, [(("b").toList, []), (("a").toList, [])])]

/-- The C6 counterexample state: buffer `p.`, cursor at column 2. -/
def c6State : EState := { mkState [("p.").toList] 0 2 with acProjectData := some c6pd }

/-- The 2-segment candidate list exactly as claim C6 words it: the dataset
names stored under the project, in stored (unsorted) order, filtered by the
fragment as a case-insensitive prefix with exact-match exclusion. -/
def c6ClaimCandidates (pd : ProjData) (project q : Str) : List Str :=
  (((lookupA project pd).getD []).map Prod.fst).filter (fun c => decide (HierMatch q c))

theorem C6_unsorted_counterexample :
    (updateAutocomplete c6State).1.acFiltered = [("a").toList, ("b").toList] ∧
    c6ClaimCandidates c6pd (("p").toList) [] = [("b").toList, ("a").toList] ∧
    (updateAutocomplete c6State).1.acFiltered ≠ c6ClaimCandidates c6pd (("p").toList) [] := by
  decide

/-- **C6 (amended).** In hierarchical mode with a 2-segment dotted run
`[project, fragment]` and the project present in the source, the candidate
list equals the dataset names stored under that project **sorted in
ascending lexicographic (byte) order** (`sort.Strings`; the Go code ranges
over the map and then sorts), filtered by the fragment as a
case-insensitive prefix and excluding an exact case-insensitive match of a
nonempty fragment (empty fragment: no exclusion); the popup shows exactly
when this list is nonempty, and no loader call is made. -/
theorem C6_two_segment_dataset_candidates (s : EState) (p q : Str) (pd : ProjData)
    (dsMap : List (Str × List Str)) (flt : List Str)
    (hdot : dottedExprBeforeCursorLocked s = some [p, q])
    (hpd : s.acProjectData = some pd)
    (hfound : lookupA p pd = some dsMap)
    (hflt : flt = (sortStrs (dsMap.map Prod.fst)).filter (fun c => decide (HierMatch q c))) :
    ((updateAutocomplete s).1.acVisible = true ↔ flt ≠ []) ∧
    ((updateAutocomplete s).1.acVisible = true →
      (updateAutocomplete s).1.acFiltered = flt ∧
      (updateAutocomplete s).1.acPrefix = q) ∧
    (updateAutocomplete s).2 = [] := by
  have hseg : acSegments [p, q] pd = (sortStrs (dsMap.map Prod.fst), q, p) := by
    rw [acSegments_two, hfound]
  have hfoundne : lookupA p pd ≠ none := by rw [hfound]; simp
  rw [updateAC_dotted s [p, q] pd hdot hpd, hseg]
  dsimp only
  rw [acRequestLoad_found p pd s hfoundne]
  obtain ⟨hiff, himp⟩ := acDottedFilter_spec (sortStrs (dsMap.map Prod.fst)) q s flt hflt
  exact ⟨hiff, himp, rfl⟩

/-- The C6 scenario state: buffer `my-project.`, cursor at column 11, source
`{my-project: {ds1: [t1], ds2: [t2]}}`. -/
def c6wState : EState :=
  { mkState [("my-project.").toList] 0 11 with
    acProjectData := some [(("my-project").toList,
      [(("ds1").toList, [("t1").toList]), (("ds2").toList, [("t2").toList])])] }

/-- Witness for the amended C6: the 2-segment split of `my-project.` with
empty fragment yields candidates `[ds1, ds2]` and shows the popup. -/
theorem C6_two_segment_dataset_candidates_witness :
    (updateAutocomplete c6wState).1.acVisible = true ∧
    (updateAutocomplete c6wState).1.acFiltered = [("ds1").toList, ("ds2").toList] := by
  have h := C6_two_segment_dataset_candidates c6wState (("my-project").toList) []
    [(("my-project").toList, [(("ds1").toList, [("t1").toList]), (("ds2").toList, [("t2").toList])])]
    [(("ds1").toList, [("t1").toList]), (("ds2").toList, [("t2").toList])]
    [("ds1").toList, ("ds2").toList]
    (by decide) rfl (by decide) (by decide)
  have hv : (updateAutocomplete c6wState).1.acVisible = true := h.1.mpr (by decide)
  exact ⟨hv, (h.2.1 hv).1⟩

end SQLEd
